import Mathlib

/-!
Shallow embedding of the conversion-orchestration core of the
Simple-Media-Converter repository (src/logic.py and src/gui.py),
together with theorems settling the specification claims.

Conventions of the embedding:
* Python strings are Lean `String`s; the diagnostic stream is a list of lines.
* Python floats that only ever hold exact decimal arithmetic here
  (timestamps, durations, progress percentages) are modelled as `ℚ`.
* The GUI event queue is modelled as a list of `GuiEvent`s in emission order.
* Exceptions are modelled by explicit outcome types: an exception that a
  caller catches becomes a constructor of the callee's result type.
* Filesystem effects of the join strategies are modelled as a list of
  `FsAction`s in the order they are performed.
-/

/-! ### String helpers mirroring `os.path` operations used by the code -/

/-- Characters of a path after the last `/` separator (`os.path.basename`). -/
def afterLastSep (l : List Char) : List Char :=
  l.foldl (fun acc c => if c = '/' then [] else acc ++ [c]) []

/-- `os.path.basename` (posix flavour). -/
def basename (p : String) : String :=
  String.mk (afterLastSep p.toList)

/-- Index of the last `.` in a character list, if any. -/
def lastDotIdxAux : List Char → Nat → Option Nat → Option Nat
  | [], _, acc => acc
  | c :: rest, i, acc => lastDotIdxAux rest (i + 1) (if c = '.' then some i else acc)

def lastDotIdx (l : List Char) : Option Nat :=
  lastDotIdxAux l 0 none

/-- Extension part of `os.path.splitext`: the suffix of the final path
component starting at its last dot, empty when the component has no dot or
consists of leading dots only (CPython `genericpath._splitext`). -/
def splitextExt (p : String) : String :=
  let b := afterLastSep p.toList
  match lastDotIdx b with
  | none => ""
  | some i => if (b.take i).all (fun c => c = '.') then "" else String.mk (b.drop i)

/-- Whether `needle` occurs as a contiguous substring of `hay`
(Python's `in` operator on strings). -/
def containsSub (needle hay : String) : Bool :=
  (hay.toList.tails).any (fun t => needle.toList.isPrefixOf t)

/-- `str.lower()` character by character (the extensions compared against
are plain ASCII). -/
def toLowerAscii (s : String) : String :=
  String.mk (s.toList.map Char.toLower)

/-! ### GUI events (`gui_queue.put` payloads) -/

/-- One message put on the GUI queue (or shown as a message box). -/
inductive GuiEvent where
  | status (text : String)
  | progress (pct : ℚ)
  | progressMode (mode : String)
  | totalTime (seconds : ℚ)
  | processingDone
  | showinfo (title message : String)
  | showerror (title message : String)
  | showwarning (title message : String)
  deriving DecidableEq

/-! ### FFmpeg error values and `handle_ffmpeg_error` -/

/-- The data of a caught exception as `handle_ffmpeg_error` inspects it:
`msg` is `str(e)`, `stderr` is the captured diagnostic text when the
exception carries one (`ffmpeg.Error`), `none` otherwise.  A `some ""`
value is falsy in Python, matching the `e.stderr` truthiness test. -/
structure FfmpegError where
  msg : String
  stderr : Option String
  deriving DecidableEq

/-- Whether `hasattr(e, 'stderr') and e.stderr` holds. -/
def hasStderrText (e : FfmpegError) : Bool :=
  match e.stderr with
  | some st => st ≠ ""
  | none => false

/-- The remediation text shown for unsupported-codec failures. -/
def unsupportedCodecMsg : String :=
  "FFmpeg could not process the file because a required audio or video codec is not supported by your current FFmpeg build.\n\n" ++
  "What you can do:\n" ++
  "1. Try converting to a different output format.\n" ++
  "2. Ensure you are using a 'full build' of FFmpeg, which includes more codecs. You can find download links in the 'Help FFmpeg Config' window.\n" ++
  "3. Use the 'Test Libraries' button in the 'FFmpeg Library' window to check which formats your build supports."

/-- The stderr text `handle_ffmpeg_error` works with, `none` when the
truthiness test fails. -/
def FfmpegError.stderrI (e : FfmpegError) : Option String :=
  match e.stderr with
  | some st => if st = "" then none else some st
  | none => none

/-- Dialog title chosen by `handle_ffmpeg_error`. -/
def classifyTitle (e : FfmpegError) : String :=
  match e.stderrI with
  | some st =>
      if containsSub "Unknown encoder" st || containsSub "Unknown decoder" st then
        "Unsupported Codec"
      else "FFmpeg Error"
  | none => "FFmpeg Error"

/-- Dialog message chosen by `handle_ffmpeg_error`. -/
def classifyMsg (e : FfmpegError) : String :=
  match e.stderrI with
  | some st =>
      if containsSub "Unknown encoder" st || containsSub "Unknown decoder" st then
        unsupportedCodecMsg
      else "An error occurred with FFmpeg:\n" ++ st
  | none => "An unexpected error occurred: " ++ e.msg

/-- Events emitted by `handle_ffmpeg_error`. -/
def handle_ffmpeg_error (e : FfmpegError) : List GuiEvent :=
  [GuiEvent.showerror (classifyTitle e) (classifyMsg e),
   GuiEvent.status "Error during processing."]

/-! ### `run_ffmpeg_cancellable`: outcome decision after the child exits -/

/-- The outcome of one engine run as the callers observe it: the
`InterruptedError` raise, the `ffmpeg.Error` raise, or a normal return. -/
inductive RunResult where
  | cancelled
  | failure (stdout stderr : String)
  | success
  deriving DecidableEq

/-- How `run_ffmpeg_cancellable` decides the outcome once the child process
has exited, from the cancellation token, the exit code and the captured
output: cancellation first, then the non-zero exit-code check. -/
def run_outcome (cancelSet : Bool) (returncode : Int) (stdout stderr : String) : RunResult :=
  if cancelSet then RunResult.cancelled
  else if returncode ≠ 0 then RunResult.failure stdout stderr
  else RunResult.success

/-- The whole of `run_ffmpeg_cancellable`: a `subprocess.Popen` spawn
failure propagates as an error to the caller; otherwise the run always
produces a `RunResult` from the exit state. -/
def run_ffmpeg_cancellable (spawn : Except String (Bool × Int × String × String)) :
    Except String RunResult :=
  match spawn with
  | Except.error e => Except.error e
  | Except.ok (cancelSet, rc, out, err) => Except.ok (run_outcome cancelSet rc out err)

/-! ### The `read_pipe` progress parser -/

/-- Try to match the regex `time=(\d\d):(\d\d):(\d\d)\.(\d\d)` at the head
of a character list, returning the four captured two-digit groups. -/
def matchTimeAt : List Char → Option (Nat × Nat × Nat × Nat)
  | 't' :: 'i' :: 'm' :: 'e' :: '=' :: h1 :: h2 :: ':' :: m1 :: m2 :: ':' :: s1 :: s2 :: '.' :: c1 :: c2 :: _ =>
      if h1.isDigit && h2.isDigit && m1.isDigit && m2.isDigit &&
         s1.isDigit && s2.isDigit && c1.isDigit && c2.isDigit then
        some (10 * (h1.toNat - 48) + (h2.toNat - 48),
              10 * (m1.toNat - 48) + (m2.toNat - 48),
              10 * (s1.toNat - 48) + (s2.toNat - 48),
              10 * (c1.toNat - 48) + (c2.toNat - 48))
      else none
  | _ => none

/-- `re.search` for the timestamp pattern: the match at the leftmost
starting position, if any. -/
def searchTime : List Char → Option (Nat × Nat × Nat × Nat)
  | [] => none
  | c :: rest =>
      match matchTimeAt (c :: rest) with
      | some r => some r
      | none => searchTime rest

/-- `h * 3600 + m * 60 + s + hs / 100`, the current processing position. -/
def timeToSeconds (h m s hs : Nat) : ℚ :=
  (h : ℚ) * 3600 + (m : ℚ) * 60 + (s : ℚ) + (hs : ℚ) / 100

/-- Zero-padded two-digit decimal rendering. -/
def pad2 (n : Nat) : String :=
  if n < 10 then "0" ++ toString n else toString n

/-- `time.strftime('%H:%M:%S', time.gmtime(q))` for a non-negative number
of seconds. -/
def formatHMS (q : ℚ) : String :=
  let t : Nat := q.floor.toNat
  pad2 (t / 3600 % 24) ++ ":" ++ pad2 (t % 3600 / 60) ++ ":" ++ pad2 (t % 60)

/-- Events the `read_pipe` worker emits for one diagnostic line, given the
optional expected duration and the wall-clock seconds elapsed since the
run started when the line is handled. -/
def read_pipe (line : List Char) (total_duration : Option ℚ) (elapsed : ℚ) :
    List GuiEvent :=
  match total_duration with
  | none => []
  | some dur =>
      if 0 < dur then
        match searchTime line with
        | none => []
        | some (h, m, s, hs) =>
            let current := timeToSeconds h m s hs
            let progress := current / dur * 100
            (if 0 < current ∧ 1 < elapsed then
               [GuiEvent.status ("Processing... ETA: " ++
                  formatHMS ((dur - current) / (current / elapsed)))]
             else []) ++
            [GuiEvent.progress (min progress 100)]
      else []

/-! ### `get_ffmpeg_args`: the Command Synthesizer -/

/-- The settings snapshot fields `get_ffmpeg_args` reads. -/
structure Settings where
  mode : String
  metadata : Bool
  audio_normalize : Bool
  video_codec : String
  output_format_video : String
  video_resolution : String
  video_fps : String
  output_format_audio : String
  vbr_mode : Bool
  vbr_quality : Int
  bitrate : String
  deriving DecidableEq

/-- A value in the FFmpeg argument dictionary: `vn` carries Python `None`. -/
inductive ArgVal where
  | int (n : Int)
  | str (s : String)
  | flag
  deriving DecidableEq

/-- The maximal run of digits starting at the first digit of the list:
the text captured by `re.search(r'(\d+)', resolution)`. -/
def firstNum : List Char → List Char
  | [] => []
  | c :: rest => if c.isDigit then c :: rest.takeWhile Char.isDigit else firstNum rest

/-- The height extracted from the resolution label. -/
def heightOf (resolution : String) : String :=
  String.mk (firstNum resolution.toList)

/-- `get_ffmpeg_args`: the argument dictionary, as the ordered list of
key/value insertions the function performs (all keys are distinct). -/
def get_ffmpeg_args (s : Settings) : List (String × ArgVal) :=
  (if !s.metadata then [("map_metadata", ArgVal.int (-1))] else [("map", ArgVal.str "0")]) ++
  (if s.audio_normalize then [("af", ArgVal.str "loudnorm=I=-16:TP=-1.5:LRA=11")] else []) ++
  (if s.mode = "Video" then
    [("vcodec", ArgVal.str s.video_codec), ("format", ArgVal.str s.output_format_video)] ++
    (if s.video_resolution ≠ "Keep Original" then
      [("vf", ArgVal.str ("scale=-2:" ++ heightOf s.video_resolution))] else []) ++
    (if s.video_fps ≠ "Keep Original" then [("r", ArgVal.str s.video_fps)] else [])
  else
    [("format", ArgVal.str s.output_format_audio)] ++
    (if s.vbr_mode then [("q:a", ArgVal.int s.vbr_quality)]
     else [("audio_bitrate", ArgVal.str s.bitrate)]) ++
    [("vn", ArgVal.flag)])

/-- The keys of the synthesized argument dictionary, in insertion order. -/
def argKeys (s : Settings) : List String :=
  (get_ffmpeg_args s).map Prod.fst

/-! ### `process_individual` -/

/-- What happens when the loop body runs for one file: cancellation seen at
the loop head; a successful conversion; a caught engine failure; or an
`InterruptedError` from cancellation during the run.  `probeFails` records
whether the best-effort duration probe raised (removing the ETA only). -/
inductive StepResult where
  | cancelHead
  | ok (probeFails : Bool)
  | fail (probeFails : Bool) (e : FfmpegError)
  | interrupted (probeFails : Bool)
  deriving DecidableEq

/-- Whether a step is a caught per-file engine failure. -/
def isFail : StepResult → Bool
  | StepResult.fail _ _ => true
  | _ => false

/-- The `Converting (i+1/total): name` status text. -/
def convMsg (i total : Nat) (name : String) : String :=
  "Converting (" ++ toString (i + 1) ++ "/" ++ toString total ++ "): " ++ basename name

/-- The status text emitted when the duration probe fails. -/
def etaNAMsg (i total : Nat) : String :=
  "Converting (" ++ toString (i + 1) ++ "/" ++ toString total ++ ")... (ETA not available)"

/-- Status events emitted while one file is prepared and converted. -/
def fileEvents (i total : Nat) (name : String) (probeFails : Bool) : List GuiEvent :=
  GuiEvent.status (convMsg i total name) ::
    (if probeFails then [GuiEvent.status (etaNAMsg i total)] else [])

/-- Events the individual-mode loop emits, starting at file index `i`. -/
def indivEvents (total : Nat) : Nat → List (String × StepResult) → List GuiEvent
  | _, [] => []
  | _, (_, StepResult.cancelHead) :: _ => [GuiEvent.status "Conversion process cancelled."]
  | i, (name, StepResult.ok p) :: rest =>
      fileEvents i total name p ++ indivEvents total (i + 1) rest
  | i, (name, StepResult.interrupted p) :: _ => fileEvents i total name p
  | i, (name, StepResult.fail p e) :: rest =>
      fileEvents i total name p ++ handle_ffmpeg_error e ++ indivEvents total (i + 1) rest

/-- The `failed_files` list accumulated by the individual-mode loop. -/
def indivFailed : List (String × StepResult) → List String
  | [] => []
  | (_, StepResult.cancelHead) :: _ => []
  | (_, StepResult.ok _) :: rest => indivFailed rest
  | (_, StepResult.interrupted _) :: _ => []
  | (name, StepResult.fail _ _) :: rest => basename name :: indivFailed rest

/-- Whether the loop breaks out through an observed cancellation (in which
case the token is set when the summary guard runs). -/
def indivBroke : List (String × StepResult) → Bool
  | [] => false
  | (_, StepResult.cancelHead) :: _ => true
  | (_, StepResult.ok _) :: rest => indivBroke rest
  | (_, StepResult.interrupted _) :: _ => true
  | (_, StepResult.fail _ _) :: rest => indivBroke rest

/-- `"\n".join(lines)`. -/
def joinLines : List String → String
  | [] => ""
  | [a] => a
  | a :: rest => a ++ "\n" ++ joinLines rest

/-- The summary message built after the loop. -/
def summaryMsg (total : Nat) (failed : List String) : String :=
  let base := "Finished processing.\n\nSuccessfully converted: " ++
    toString (total - failed.length) ++ "\nFailed: " ++ toString failed.length
  if failed.isEmpty then base
  else base ++ "\n\nFailed files:\n" ++ joinLines failed

/-- The two summary events. -/
def summaryEvents (total : Nat) (failed : List String) : List GuiEvent :=
  [GuiEvent.showinfo "Processing Complete" (summaryMsg total failed),
   GuiEvent.status "Individual conversion complete."]

/-- `process_individual` after an output directory has been chosen:
`cancelAfter` is the value of the cancellation token at the final summary
guard when the loop ran to completion without observing cancellation. -/
def process_individual (files : List (String × StepResult)) (cancelAfter : Bool) :
    List GuiEvent :=
  GuiEvent.progressMode "determinate" ::
    (indivEvents files.length 0 files ++
     (if indivBroke files || cancelAfter then []
      else summaryEvents files.length (indivFailed files)))

/-! ### The joined strategies (`process_joined_audio`, `process_joined_video`) -/

/-- A filesystem action the join strategies perform on the staging area. -/
inductive FsAction where
  | mkdtemp
  | writeIntermediate (i : Nat)
  | rmtree
  deriving DecidableEq

/-- What happens for one file of the intermediate-conversion loop:
cancellation observed at the loop head, a successful intermediate encode,
or an engine failure raised by the encode (which may leave a partial
intermediate file behind). -/
inductive PrepStep where
  | cancelHead
  | ok
  | err (e : FfmpegError)
  deriving DecidableEq

/-- How the `try` body of a join strategy exits. -/
inductive LoopExit where
  | normal
  | interrupted
  | failed (e : FfmpegError)
  deriving DecidableEq

/-- The `Preparing file i+1/total for joining...` status text. -/
def prepMsg (i total : Nat) : String :=
  "Preparing file " ++ toString (i + 1) ++ "/" ++ toString total ++ " for joining..."

/-- Status events of the intermediate-conversion loop from index `i` on. -/
def prepEvents (total : Nat) : Nat → List PrepStep → List GuiEvent
  | _, [] => []
  | _, PrepStep.cancelHead :: _ => []
  | i, PrepStep.ok :: rest => GuiEvent.status (prepMsg i total) :: prepEvents total (i + 1) rest
  | i, PrepStep.err _ :: _ => [GuiEvent.status (prepMsg i total)]

/-- Staging-area writes of the intermediate-conversion loop from index `i`. -/
def prepActions : Nat → List PrepStep → List FsAction
  | _, [] => []
  | _, PrepStep.cancelHead :: _ => []
  | i, PrepStep.ok :: rest => FsAction.writeIntermediate i :: prepActions (i + 1) rest
  | i, PrepStep.err _ :: _ => [FsAction.writeIntermediate i]

/-- How the intermediate-conversion loop exits. -/
def prepExit : List PrepStep → LoopExit
  | [] => LoopExit.normal
  | PrepStep.cancelHead :: _ => LoopExit.interrupted
  | PrepStep.ok :: rest => prepExit rest
  | PrepStep.err e :: _ => LoopExit.failed e

/-- What happens after the intermediate loop completed normally: the
post-loop cancellation check, or the final concat-and-encode run
(cancelled, failed, or successful — `cancelAfter` is the token's value at
the success check). -/
inductive FinalStep where
  | cancelBeforeFinal
  | runCancelled
  | runFailed (e : FfmpegError)
  | runOk (cancelAfter : Bool)
  deriving DecidableEq

/-- Events of the `except` clauses of the join strategies. -/
def joinHandlerEvents : LoopExit → List GuiEvent
  | LoopExit.normal => []
  | LoopExit.interrupted => [GuiEvent.status "Join process cancelled."]
  | LoopExit.failed e => handle_ffmpeg_error e

/-- The success events shared by both join strategies. -/
def joinSuccessEvents (outF : String) : List GuiEvent :=
  [GuiEvent.showinfo "Processing Complete" ("Successfully joined and saved to " ++ outF),
   GuiEvent.status "Join complete."]

/-- Events and exit of the audio join's final stage. -/
def joinedAudioTail (outF : String) : FinalStep → List GuiEvent × LoopExit
  | FinalStep.cancelBeforeFinal => ([], LoopExit.interrupted)
  | FinalStep.runCancelled =>
      ([GuiEvent.status "Concatenating files...",
        GuiEvent.status ("Exporting to " ++ basename outF ++ "...")], LoopExit.interrupted)
  | FinalStep.runFailed e =>
      ([GuiEvent.status "Concatenating files...",
        GuiEvent.status ("Exporting to " ++ basename outF ++ "...")], LoopExit.failed e)
  | FinalStep.runOk cancelAfter =>
      ([GuiEvent.status "Concatenating files...",
        GuiEvent.status ("Exporting to " ++ basename outF ++ "...")] ++
       (if cancelAfter then [] else joinSuccessEvents outF), LoopExit.normal)

/-- Events and exit of the video join's final stage (no export status). -/
def joinedVideoTail (outF : String) : FinalStep → List GuiEvent × LoopExit
  | FinalStep.cancelBeforeFinal => ([], LoopExit.interrupted)
  | FinalStep.runCancelled => ([GuiEvent.status "Concatenating files..."], LoopExit.interrupted)
  | FinalStep.runFailed e => ([GuiEvent.status "Concatenating files..."], LoopExit.failed e)
  | FinalStep.runOk cancelAfter =>
      (GuiEvent.status "Concatenating files..." ::
       (if cancelAfter then [] else joinSuccessEvents outF), LoopExit.normal)

/-- `process_joined_audio`: events and staging-area actions.  `outF` is the
destination chosen in the save dialog, `""` when the user cancelled it
(the falsy return); `steps` gives each file's intermediate-encode result
and `fin` the final stage's, both only reached on the respective paths. -/
def process_joined_audio (outF : String) (steps : List PrepStep) (fin : FinalStep) :
    List GuiEvent × List FsAction :=
  let head := [GuiEvent.status "Joining audio files...",
               GuiEvent.progressMode "indeterminate"]
  if outF = "" then
    (head ++ [GuiEvent.status "Save cancelled.", GuiEvent.progressMode "determinate"], [])
  else
    let bodyTail :=
      match prepExit steps with
      | LoopExit.normal => joinedAudioTail outF fin
      | LoopExit.interrupted => ([], LoopExit.interrupted)
      | LoopExit.failed e => ([], LoopExit.failed e)
    (head ++ prepEvents steps.length 0 steps ++ bodyTail.1 ++
       joinHandlerEvents bodyTail.2 ++ [GuiEvent.progressMode "determinate"],
     FsAction.mkdtemp :: (prepActions 0 steps ++ [FsAction.rmtree]))

/-- `process_joined_video`: events and staging-area actions. -/
def process_joined_video (outF : String) (steps : List PrepStep) (fin : FinalStep) :
    List GuiEvent × List FsAction :=
  let head := [GuiEvent.status "Joining video files...",
               GuiEvent.progressMode "indeterminate"]
  if outF = "" then
    (head ++ [GuiEvent.status "Save cancelled.", GuiEvent.progressMode "determinate"], [])
  else
    let bodyTail :=
      match prepExit steps with
      | LoopExit.normal => joinedVideoTail outF fin
      | LoopExit.interrupted => ([], LoopExit.interrupted)
      | LoopExit.failed e => ([], LoopExit.failed e)
    (head ++ prepEvents steps.length 0 steps ++ bodyTail.1 ++
       joinHandlerEvents bodyTail.2 ++ [GuiEvent.progressMode "determinate"],
     FsAction.mkdtemp :: (prepActions 0 steps ++ [FsAction.rmtree]))

/-! ### `process_files` -/

/-- The strategy dispatch of `process_files`, giving the events the `try`
body emits when it runs to completion. -/
def strategyEvents (mode : String) (joinA joinV : Bool) (outF : String)
    (steps : List PrepStep) (fin : FinalStep)
    (files : List (String × StepResult)) (cancelAfter : Bool) : List GuiEvent :=
  if mode = "Audio" ∧ joinA then (process_joined_audio outF steps fin).1
  else if mode = "Video" ∧ joinV then (process_joined_video outF steps fin).1
  else process_individual files cancelAfter

/-- The full event trace of one `process_files` job: whatever the body
emitted (all of the strategy's events, or a prefix of them when an
unexpected exception interrupts the body), then — from the `finally`
block — the total-time event and the processing-done event. -/
def process_files_trace (bodyEvents : List GuiEvent) (elapsed : ℚ) : List GuiEvent :=
  bodyEvents ++ [GuiEvent.totalTime elapsed, GuiEvent.processingDone]

/-! ### `add_files_to_list` -/

def supported_audio : List String :=
  [".mp3", ".aac", ".m4a", ".ogg", ".wav", ".flac", ".alac", ".aiff", ".wma"]

def supported_video : List String :=
  [".mp4", ".mov", ".avi", ".webm", ".wmv", ".flv", ".mkv", ".mts", ".mpeg-4", ".avchd"]

def supported_extensions : List String :=
  supported_audio ++ supported_video

/-- The loop of `add_files_to_list` over the incoming paths: returns the
updated batch, the collected unsupported basenames, and whether the
20-file limit warning fired (breaking the loop). -/
def addLoop : List String → List String → List String × List String × Bool
  | paths, [] => (paths, [], false)
  | paths, f :: rest =>
      if toLowerAscii (splitextExt f) ∉ supported_extensions then
        let r := addLoop paths rest
        (r.1, basename f :: r.2.1, r.2.2)
      else if paths.length < 20 ∧ f ∉ paths then
        addLoop (paths ++ [f]) rest
      else if 20 ≤ paths.length then
        (paths, [], true)
      else
        addLoop paths rest

/-- `add_files_to_list`: the new batch and the warning boxes shown. -/
def add_files_to_list (paths files : List String) : List String × List GuiEvent :=
  let r := addLoop paths files
  (r.1,
   (if r.2.2 then
      [GuiEvent.showwarning "Limit Reached" "You can only add up to 20 files."] else []) ++
   (if r.2.1.isEmpty then [] else
      [GuiEvent.showwarning "Unsupported Files"
        ("The following files have unsupported formats and were skipped:\n\n" ++
         joinLines r.2.1)]))

/-! ### Event-class predicates used by the theorems -/

/-- Whether an event is a `showinfo` box (the summary dialog class). -/
def isSummaryInfo : GuiEvent → Bool
  | GuiEvent.showinfo _ _ => true
  | _ => false

/-- Whether an event is one of the two job-terminal events that only the
`finally` block of `process_files` emits. -/
def isTerminalEvent : GuiEvent → Bool
  | GuiEvent.totalTime _ => true
  | GuiEvent.processingDone => true
  | _ => false

/-! ## Theorems for the claims -/

/-- Claim C1: after the child exits, `run_ffmpeg_cancellable` decides the
outcome as: cancellation (token set) takes precedence over the exit code;
otherwise a non-zero exit code yields the failure outcome carrying the
captured diagnostic text and a zero exit code yields success.  The run
never throws for ordinary engine failures (the result is always `ok` once
the spawn succeeded); only process-spawn failure propagates as an error to
the caller. -/
theorem c1_run_outcome_decision :
    (∀ (c : Bool) (rc : Int) (out err : String),
       run_ffmpeg_cancellable (Except.ok (c, rc, out, err)) =
         Except.ok (run_outcome c rc out err) ∧
       (run_outcome c rc out err = RunResult.cancelled ↔ c = true) ∧
       (run_outcome c rc out err = RunResult.failure out err ↔ c = false ∧ rc ≠ 0) ∧
       (run_outcome c rc out err = RunResult.success ↔ c = false ∧ rc = 0)) ∧
    (∀ e : String, run_ffmpeg_cancellable (Except.error e) = Except.error e) := by
  refine ⟨fun c rc out err => ⟨rfl, ?_, ?_, ?_⟩, fun e => rfl⟩ <;>
    cases c <;> by_cases h : rc = 0 <;> simp [run_outcome, h]

/-- Claim C2: for every diagnostic line in which the timestamp pattern
matches, with a positive expected duration the parser emits a progress
event equal to `min(100, 100 * currentSeconds / expectedDuration)`; the
synthetic line `time=00:00:30.00` with expected duration 60 yields a
progress event of 50; and the `HH:MM:SS` ETA status is emitted exactly
when more than 1 second of wall-clock time has elapsed and
`currentSeconds > 0`, its value `(dur - current) / (current / elapsed)`. -/
theorem c2_progress_and_eta (line : List Char) (dur elapsed : ℚ) (hd : 0 < dur)
    (h m s hs : Nat) (hfind : searchTime line = some (h, m, s, hs)) :
    GuiEvent.progress (min 100 (100 * timeToSeconds h m s hs / dur)) ∈
      read_pipe line (some dur) elapsed ∧
    ((GuiEvent.status ("Processing... ETA: " ++
        formatHMS ((dur - timeToSeconds h m s hs) / (timeToSeconds h m s hs / elapsed))) ∈
        read_pipe line (some dur) elapsed) ↔
      0 < timeToSeconds h m s hs ∧ 1 < elapsed) ∧
    GuiEvent.progress 50 ∈ read_pipe "time=00:00:30.00".toList (some 60) elapsed := by
  have hmin : timeToSeconds h m s hs / dur * 100 = 100 * timeToSeconds h m s hs / dur := by
    ring
  have heq : read_pipe line (some dur) elapsed =
      (if 0 < timeToSeconds h m s hs ∧ 1 < elapsed then
        [GuiEvent.status ("Processing... ETA: " ++
          formatHMS ((dur - timeToSeconds h m s hs) / (timeToSeconds h m s hs / elapsed)))]
       else []) ++ [GuiEvent.progress (min 100 (100 * timeToSeconds h m s hs / dur))] := by
    simp only [read_pipe, hfind, hd, if_true, hmin, min_comm]
  refine ⟨?_, ?_, ?_⟩
  · rw [heq]; exact List.mem_append_right _ (List.mem_singleton.mpr rfl)
  · rw [heq]
    constructor
    · intro hmem
      rcases List.mem_append.mp hmem with h1 | h2
      · by_contra hc
        rw [if_neg hc] at h1
        exact absurd h1 (List.not_mem_nil _)
      · exact absurd (List.mem_singleton.mp h2) (by simp)
    · intro hc
      rw [if_pos hc]
      exact List.mem_append_left _ (List.mem_singleton.mpr rfl)
  · have h30 : searchTime "time=00:00:30.00".toList = some (0, 0, 30, 0) := by decide
    have hts : timeToSeconds 0 0 30 0 = 30 := by norm_num [timeToSeconds]
    simp only [read_pipe, h30]
    norm_num [hts]

/-- Witness for claim C2 at the synthetic line of the spec's example. -/
theorem c2_witness :
    (0 : ℚ) < 60 ∧ searchTime "time=00:00:30.00".toList = some (0, 0, 30, 0) ∧
    GuiEvent.progress 50 ∈ read_pipe "time=00:00:30.00".toList (some 60) 2 :=
  ⟨by norm_num, by decide,
   (c2_progress_and_eta "time=00:00:30.00".toList 60 2 (by norm_num) 0 0 30 0
      (by decide)).2.2⟩

/-- Claim C3: for every settings value, the synthesized argument list
contains exactly one of the strip-metadata key `map_metadata` (present iff
preserve-metadata is false) and the map-all-streams key `map` (present iff
preserve-metadata is true) — never both, never neither. -/
theorem c3_metadata_exclusive (s : Settings) :
    (argKeys s).count "map_metadata" + (argKeys s).count "map" = 1 ∧
    ("map_metadata" ∈ argKeys s ↔ s.metadata = false) ∧
    ("map" ∈ argKeys s ↔ s.metadata = true) := by
  cases hm : s.metadata <;>
    simp [argKeys, get_ffmpeg_args, hm] <;> split_ifs <;> simp_all [List.count_append]

/-- Claim C4: in Audio mode the synthesized argument list contains exactly
one of the quality-level key `q:a` (present iff variable bitrate is
selected) and the fixed-bitrate key `audio_bitrate`, and always contains
the video-suppression key `vn`. -/
theorem c4_audio_args (s : Settings) (hmode : s.mode = "Audio") :
    (argKeys s).count "q:a" + (argKeys s).count "audio_bitrate" = 1 ∧
    ("q:a" ∈ argKeys s ↔ s.vbr_mode = true) ∧
    "vn" ∈ argKeys s := by
  have hv : ¬ s.mode = "Video" := by rw [hmode]; decide
  cases hb : s.vbr_mode <;> cases hmm : s.metadata <;>
    simp [argKeys, get_ffmpeg_args, hb, hmm, hv] <;> split_ifs <;> simp_all [List.count_append]

/-- Witness for claim C4 at a concrete VBR audio settings value. -/
theorem c4_witness :
    (Settings.mode ⟨"Audio", true, false, "", "mp4", "Keep Original", "Keep Original",
       "mp3", true, 0, "192k"⟩ = "Audio") ∧
    ((argKeys ⟨"Audio", true, false, "", "mp4", "Keep Original", "Keep Original",
        "mp3", true, 0, "192k"⟩).count "q:a" +
     (argKeys ⟨"Audio", true, false, "", "mp4", "Keep Original", "Keep Original",
        "mp3", true, 0, "192k"⟩).count "audio_bitrate" = 1 ∧
     ("q:a" ∈ argKeys ⟨"Audio", true, false, "", "mp4", "Keep Original", "Keep Original",
        "mp3", true, 0, "192k"⟩ ↔
      Settings.vbr_mode ⟨"Audio", true, false, "", "mp4", "Keep Original", "Keep Original",
        "mp3", true, 0, "192k"⟩ = true) ∧
     "vn" ∈ argKeys ⟨"Audio", true, false, "", "mp4", "Keep Original", "Keep Original",
        "mp3", true, 0, "192k"⟩) :=
  ⟨rfl, c4_audio_args _ rfl⟩

/-- The individual-mode loop emits no `showinfo` event of its own. -/
theorem indivEvents_countP_showinfo (total : Nat) (l : List (String × StepResult)) :
    ∀ i : Nat, (indivEvents total i l).countP isSummaryInfo = 0 := by
  induction l with
  | nil => intro i; simp [indivEvents]
  | cons hd rest ih =>
      intro i
      obtain ⟨name, st⟩ := hd
      cases st <;>
        simp [indivEvents, fileEvents, handle_ffmpeg_error, isSummaryInfo,
          List.countP_append, List.countP_cons, ih]

/-- When the loop runs to completion, the failed list holds exactly the
basenames of the files whose step failed, in order. -/
theorem indivFailed_eq_filter (l : List (String × StepResult)) (hnb : indivBroke l = false) :
    indivFailed l = (l.filter (fun x => isFail x.2)).map (fun x => basename x.1) := by
  induction l with
  | nil => simp [indivFailed]
  | cons hd rest ih =>
      obtain ⟨name, st⟩ := hd
      cases st with
      | cancelHead => simp [indivBroke] at hnb
      | interrupted p => simp [indivBroke] at hnb
      | ok p =>
          simp [indivBroke] at hnb
          simp [indivFailed, isFail, ih hnb]
      | fail p e =>
          simp [indivBroke] at hnb
          simp [indivFailed, isFail, ih hnb]

/-- Claim C5: in the Individual strategy every engine failure is recorded
in the failed list and processing continues; when no cancellation was
observed, exactly one summary dialog is emitted, reporting
`total - failed` succeeded, `failed` failures and the failed names; a
batch of 3 whose second file fails reports 2 succeeded and 1 failed,
names file 2, and still processes file 3. -/
theorem c5_individual_summary (files : List (String × StepResult)) (cancelAfter : Bool)
    (hnb : indivBroke files = false) (hca : cancelAfter = false) :
    (process_individual files cancelAfter).countP isSummaryInfo = 1 ∧
    GuiEvent.showinfo "Processing Complete" (summaryMsg files.length (indivFailed files)) ∈
      process_individual files cancelAfter ∧
    indivFailed files = (files.filter (fun x => isFail x.2)).map (fun x => basename x.1) ∧
    (indivFailed
        [("f1.mp3", StepResult.ok false),
         ("f2.mp3", StepResult.fail false ⟨"err", some "boom"⟩),
         ("f3.mp3", StepResult.ok false)] = ["f2.mp3"] ∧
     GuiEvent.status (convMsg 2 3 "f3.mp3") ∈
       process_individual
         [("f1.mp3", StepResult.ok false),
          ("f2.mp3", StepResult.fail false ⟨"err", some "boom"⟩),
          ("f3.mp3", StepResult.ok false)] false ∧
     GuiEvent.showinfo "Processing Complete"
         "Finished processing.\n\nSuccessfully converted: 2\nFailed: 1\n\nFailed files:\nf2.mp3" ∈
       process_individual
         [("f1.mp3", StepResult.ok false),
          ("f2.mp3", StepResult.fail false ⟨"err", some "boom"⟩),
          ("f3.mp3", StepResult.ok false)] false) := by
  refine ⟨?_, ?_, indivFailed_eq_filter files hnb, by decide, by decide, by decide⟩
  · simp [process_individual, hnb, hca, List.countP_cons, List.countP_append,
      indivEvents_countP_showinfo, summaryEvents, isSummaryInfo]
  · simp only [process_individual, hnb, hca, Bool.or_self, if_false]
    exact List.mem_cons_of_mem _ (List.mem_append_right _ (by simp [summaryEvents]))

/-- Witness for claim C5 at a one-file batch with no cancellation. -/
theorem c5_witness :
    indivBroke [("f1.mp3", StepResult.ok false)] = false ∧
    (process_individual [("f1.mp3", StepResult.ok false)] false).countP isSummaryInfo = 1 ∧
    GuiEvent.showinfo "Processing Complete"
        (summaryMsg [("f1.mp3", StepResult.ok false)].length
          (indivFailed [("f1.mp3", StepResult.ok false)])) ∈
      process_individual [("f1.mp3", StepResult.ok false)] false :=
  ⟨by decide,
   (c5_individual_summary [("f1.mp3", StepResult.ok false)] false (by decide) rfl).1,
   (c5_individual_summary [("f1.mp3", StepResult.ok false)] false (by decide) rfl).2.1⟩

/-- Every event of `handle_ffmpeg_error` for a failing file appears in the
individual-mode loop's trace when no earlier step broke the loop. -/
theorem handle_mem_indivEvents (total : Nat) (pre : List (String × StepResult))
    (hnb : indivBroke pre = false) (name : String) (p : Bool) (e : FfmpegError)
    (post : List (String × StepResult)) (ev : GuiEvent) (hev : ev ∈ handle_ffmpeg_error e) :
    ∀ i : Nat, ev ∈ indivEvents total i (pre ++ (name, StepResult.fail p e) :: post) := by
  induction pre with
  | nil =>
      intro i
      simp only [List.nil_append, indivEvents]
      exact List.mem_append_left _ (List.mem_append_right _ hev)
  | cons hd rest ih =>
      intro i
      obtain ⟨n2, st⟩ := hd
      cases st with
      | cancelHead => simp [indivBroke] at hnb
      | interrupted q => simp [indivBroke] at hnb
      | ok q =>
          simp [indivBroke] at hnb
          simp only [List.cons_append, indivEvents]
          exact List.mem_append_right _ (ih hnb (i + 1))
      | fail q e2 =>
          simp [indivBroke] at hnb
          simp only [List.cons_append, indivEvents]
          exact List.mem_append_right _ (ih hnb (i + 1))

/-- A failing file's basename reaches the failed list when no earlier step
broke the loop. -/
theorem basename_mem_indivFailed (pre : List (String × StepResult))
    (hnb : indivBroke pre = false) (name : String) (p : Bool) (e : FfmpegError)
    (post : List (String × StepResult)) :
    basename name ∈ indivFailed (pre ++ (name, StepResult.fail p e) :: post) := by
  induction pre with
  | nil => simp [indivFailed]
  | cons hd rest ih =>
      obtain ⟨n2, st⟩ := hd
      cases st with
      | cancelHead => simp [indivBroke] at hnb
      | interrupted q => simp [indivBroke] at hnb
      | ok q =>
          simp [indivBroke] at hnb
          simpa [indivFailed] using ih hnb
      | fail q e2 =>
          simp [indivBroke] at hnb
          simp [indivFailed]
          right
          simpa using ih hnb

/-- Claim C9: in the Individual strategy every per-file engine failure
emits an error-dialog event at the time of the failure (titled
`Unsupported Codec` when the diagnostic text contains an unknown
encoder/decoder marker, a generic engine error otherwise), in addition to
the file being counted in the failed list used by the summary. -/
theorem c9_per_file_error_dialog (pre post : List (String × StepResult)) (name : String)
    (p : Bool) (e : FfmpegError) (cancelAfter : Bool) (hpre : indivBroke pre = false) :
    GuiEvent.showerror (classifyTitle e) (classifyMsg e) ∈
      process_individual (pre ++ (name, StepResult.fail p e) :: post) cancelAfter ∧
    basename name ∈ indivFailed (pre ++ (name, StepResult.fail p e) :: post) ∧
    (∀ st : String, e.stderr = some st → ¬ st = "" →
      ((containsSub "Unknown encoder" st || containsSub "Unknown decoder" st) = true →
        classifyTitle e = "Unsupported Codec" ∧ classifyMsg e = unsupportedCodecMsg) ∧
      ((containsSub "Unknown encoder" st || containsSub "Unknown decoder" st) = false →
        classifyTitle e = "FFmpeg Error" ∧
        classifyMsg e = "An error occurred with FFmpeg:\n" ++ st)) := by
  refine ⟨?_, basename_mem_indivFailed pre hpre name p e post, ?_⟩
  · apply List.mem_cons_of_mem
    apply List.mem_append_left
    exact handle_mem_indivEvents _ pre hpre name p e post _ (by simp [handle_ffmpeg_error]) 0
  · intro st hst hne
    have hi : e.stderrI = some st := by
      simp [FfmpegError.stderrI, hst, hne]
    constructor
    · intro hmarker
      simp [classifyTitle, classifyMsg, hi, hmarker]
    · intro hmarker
      simp [classifyTitle, classifyMsg, hi, hmarker]

/-- Witness for claim C9: a lone failing file whose diagnostic text holds
the unknown-encoder marker. -/
theorem c9_witness :
    indivBroke ([] : List (String × StepResult)) = false ∧
    GuiEvent.showerror (classifyTitle ⟨"err", some "Unknown encoder libx"⟩)
        (classifyMsg ⟨"err", some "Unknown encoder libx"⟩) ∈
      process_individual
        ([] ++ ("f2.mp3", StepResult.fail false ⟨"err", some "Unknown encoder libx"⟩) :: [])
        false ∧
    basename "f2.mp3" ∈
      indivFailed
        ([] ++ ("f2.mp3", StepResult.fail false ⟨"err", some "Unknown encoder libx"⟩) :: []) :=
  ⟨rfl,
   (c9_per_file_error_dialog [] [] "f2.mp3" false ⟨"err", some "Unknown encoder libx"⟩
      false rfl).1,
   (c9_per_file_error_dialog [] [] "f2.mp3" false ⟨"err", some "Unknown encoder libx"⟩
      false rfl).2.1⟩

/-- The intermediate-conversion loop never removes the staging directory. -/
theorem rmtree_not_mem_prepActions (steps : List PrepStep) :
    ∀ i : Nat, FsAction.rmtree ∉ prepActions i steps := by
  induction steps with
  | nil => intro i; simp [prepActions]
  | cons hd rest ih => intro i; cases hd <;> simp [prepActions, ih]

/-- Action lists of the form the join strategies produce start with the
staging-directory creation and end with its removal, exactly once. -/
theorem joined_actions_shape (steps : List PrepStep) (acts : List FsAction)
    (hacts : acts = FsAction.mkdtemp :: (prepActions 0 steps ++ [FsAction.rmtree])) :
    acts.getLast? = some FsAction.rmtree ∧
    acts.count FsAction.rmtree = 1 ∧
    acts.head? = some FsAction.mkdtemp := by
  subst hacts
  refine ⟨?_, ?_, rfl⟩
  · rw [← List.cons_append, List.getLast?_concat]
  · rw [List.count_cons, List.count_append]
    have h0 : (prepActions 0 steps).count FsAction.rmtree = 0 :=
      List.count_eq_zero.mpr (rmtree_not_mem_prepActions steps 0)
    simp [h0]

/-- Claim C6: whenever a join strategy creates the temporary staging
directory (the save dialog was not cancelled), the removal of that
directory — and with it all intermediate files, which are only ever
written inside it — is the last staging-area action on every exit path:
success, engine failure or cancellation, for both the audio and the video
join. -/
theorem c6_joined_cleanup (outF : String) (steps : List PrepStep) (finA finV : FinalStep)
    (hout : ¬ outF = "") :
    ((process_joined_audio outF steps finA).2.getLast? = some FsAction.rmtree ∧
     (process_joined_audio outF steps finA).2.count FsAction.rmtree = 1 ∧
     (process_joined_audio outF steps finA).2.head? = some FsAction.mkdtemp) ∧
    ((process_joined_video outF steps finV).2.getLast? = some FsAction.rmtree ∧
     (process_joined_video outF steps finV).2.count FsAction.rmtree = 1 ∧
     (process_joined_video outF steps finV).2.head? = some FsAction.mkdtemp) := by
  constructor
  · apply joined_actions_shape steps
    simp [process_joined_audio, hout]
  · apply joined_actions_shape steps
    simp [process_joined_video, hout]

/-- Witness for claim C6 at a one-file join that succeeds. -/
theorem c6_witness :
    ¬ ("joined.mp3" : String) = "" ∧
    (process_joined_audio "joined.mp3" [PrepStep.ok] (FinalStep.runOk false)).2.getLast? =
      some FsAction.rmtree ∧
    (process_joined_video "joined.mp3" [PrepStep.ok] (FinalStep.runOk false)).2.count
      FsAction.rmtree = 1 :=
  ⟨by decide,
   (c6_joined_cleanup "joined.mp3" [PrepStep.ok] (FinalStep.runOk false)
      (FinalStep.runOk false) (by decide)).1.1,
   (c6_joined_cleanup "joined.mp3" [PrepStep.ok] (FinalStep.runOk false)
      (FinalStep.runOk false) (by decide)).2.2.1⟩

/-- The individual-mode loop never emits a job-terminal event. -/
theorem countP_terminal_indivEvents (total : Nat) (l : List (String × StepResult)) :
    ∀ i : Nat, (indivEvents total i l).countP isTerminalEvent = 0 := by
  induction l with
  | nil => intro i; simp [indivEvents]
  | cons hd rest ih =>
      intro i
      obtain ⟨name, st⟩ := hd
      cases st <;>
        simp [indivEvents, fileEvents, handle_ffmpeg_error, isTerminalEvent,
          List.countP_append, List.countP_cons, ih]

/-- The Individual strategy never emits a job-terminal event. -/
theorem countP_terminal_process_individual (files : List (String × StepResult))
    (cancelAfter : Bool) :
    (process_individual files cancelAfter).countP isTerminalEvent = 0 := by
  by_cases hc : (indivBroke files || cancelAfter) = true
  · simp [process_individual, hc, List.countP_cons, List.countP_append,
      countP_terminal_indivEvents, isTerminalEvent]
  · simp [process_individual, hc, List.countP_cons, List.countP_append,
      countP_terminal_indivEvents, summaryEvents, isTerminalEvent]

/-- The join preparation loop never emits a job-terminal event. -/
theorem countP_terminal_prepEvents (total : Nat) (steps : List PrepStep) :
    ∀ i : Nat, (prepEvents total i steps).countP isTerminalEvent = 0 := by
  induction steps with
  | nil => intro i; simp [prepEvents]
  | cons hd rest ih =>
      intro i
      cases hd <;> simp [prepEvents, isTerminalEvent, List.countP_cons, ih]

/-- The join exception handlers never emit a job-terminal event. -/
theorem countP_terminal_joinHandler (x : LoopExit) :
    (joinHandlerEvents x).countP isTerminalEvent = 0 := by
  cases x <;>
    simp [joinHandlerEvents, handle_ffmpeg_error, isTerminalEvent, List.countP_cons]

/-- The audio join's final stage never emits a job-terminal event. -/
theorem countP_terminal_audioTail (outF : String) (fin : FinalStep) :
    (joinedAudioTail outF fin).1.countP isTerminalEvent = 0 := by
  cases fin with
  | cancelBeforeFinal => simp [joinedAudioTail]
  | runCancelled => simp [joinedAudioTail, isTerminalEvent, List.countP_cons]
  | runFailed e => simp [joinedAudioTail, isTerminalEvent, List.countP_cons]
  | runOk c =>
      cases c <;>
        simp [joinedAudioTail, joinSuccessEvents, isTerminalEvent, List.countP_cons,
          List.countP_append]

/-- The video join's final stage never emits a job-terminal event. -/
theorem countP_terminal_videoTail (outF : String) (fin : FinalStep) :
    (joinedVideoTail outF fin).1.countP isTerminalEvent = 0 := by
  cases fin with
  | cancelBeforeFinal => simp [joinedVideoTail]
  | runCancelled => simp [joinedVideoTail, isTerminalEvent, List.countP_cons]
  | runFailed e => simp [joinedVideoTail, isTerminalEvent, List.countP_cons]
  | runOk c =>
      cases c <;>
        simp [joinedVideoTail, joinSuccessEvents, isTerminalEvent, List.countP_cons,
          List.countP_append]

/-- The audio join strategy never emits a job-terminal event. -/
theorem countP_terminal_joined_audio (outF : String) (steps : List PrepStep)
    (fin : FinalStep) :
    (process_joined_audio outF steps fin).1.countP isTerminalEvent = 0 := by
  by_cases hout : outF = ""
  · simp [process_joined_audio, hout, isTerminalEvent, List.countP_cons]
  · cases hpe : prepExit steps <;>
      simp [process_joined_audio, hout, hpe, List.countP_append, List.countP_cons,
        countP_terminal_prepEvents, countP_terminal_joinHandler,
        countP_terminal_audioTail, isTerminalEvent]

/-- The video join strategy never emits a job-terminal event. -/
theorem countP_terminal_joined_video (outF : String) (steps : List PrepStep)
    (fin : FinalStep) :
    (process_joined_video outF steps fin).1.countP isTerminalEvent = 0 := by
  by_cases hout : outF = ""
  · simp [process_joined_video, hout, isTerminalEvent, List.countP_cons]
  · cases hpe : prepExit steps <;>
      simp [process_joined_video, hout, hpe, List.countP_append, List.countP_cons,
        countP_terminal_prepEvents, countP_terminal_joinHandler,
        countP_terminal_videoTail, isTerminalEvent]

/-- No strategy emits a job-terminal event of its own. -/
theorem countP_terminal_strategy (mode : String) (joinA joinV : Bool) (outF : String)
    (steps : List PrepStep) (fin : FinalStep) (files : List (String × StepResult))
    (cancelAfter : Bool) :
    (strategyEvents mode joinA joinV outF steps fin files cancelAfter).countP
      isTerminalEvent = 0 := by
  simp only [strategyEvents]
  split_ifs
  · exact countP_terminal_joined_audio outF steps fin
  · exact countP_terminal_joined_video outF steps fin
  · exact countP_terminal_process_individual files cancelAfter

/-- Claim C8: for every job — whichever strategy runs, and even when the
body stops early after emitting only a prefix of its events — the
`finally` block appends the total-time event and then the
processing-done event, so processing-done is the last event on the
channel, immediately preceded by total-time, and neither occurs anywhere
else in the job's trace. -/
theorem c8_done_is_last (mode : String) (joinA joinV : Bool) (outF : String)
    (steps : List PrepStep) (fin : FinalStep) (files : List (String × StepResult))
    (cancelAfter : Bool) (elapsed : ℚ) (body : List GuiEvent)
    (hb : body <+: strategyEvents mode joinA joinV outF steps fin files cancelAfter) :
    (process_files_trace body elapsed).getLast? = some GuiEvent.processingDone ∧
    (process_files_trace body elapsed).dropLast.getLast? =
      some (GuiEvent.totalTime elapsed) ∧
    (process_files_trace body elapsed).countP isTerminalEvent = 2 ∧
    GuiEvent.processingDone ∉ body ∧ ∀ t : ℚ, GuiEvent.totalTime t ∉ body := by
  have h0 : body.countP isTerminalEvent = 0 := by
    have hle := hb.sublist.countP_le isTerminalEvent
    have := countP_terminal_strategy mode joinA joinV outF steps fin files cancelAfter
    omega
  have hnotin : ∀ ev ∈ body, isTerminalEvent ev = false := by
    intro ev hev
    by_contra hc
    have hpos : 0 < body.countP isTerminalEvent :=
      List.countP_pos_iff.mpr ⟨ev, hev, by simpa using hc⟩
    omega
  have hsplit : process_files_trace body elapsed =
      (body ++ [GuiEvent.totalTime elapsed]) ++ [GuiEvent.processingDone] := by
    simp [process_files_trace]
  refine ⟨?_, ?_, ?_, ?_, ?_⟩
  · rw [hsplit, List.getLast?_concat]
  · rw [hsplit, List.dropLast_concat, List.getLast?_concat]
  · simp [process_files_trace, List.countP_append, h0, isTerminalEvent, List.countP_cons]
  · intro hmem
    have := hnotin _ hmem
    simp [isTerminalEvent] at this
  · intro t hmem
    have := hnotin _ hmem
    simp [isTerminalEvent] at this

/-- Witness for claim C8 at a concrete audio-join job. -/
theorem c8_witness :
    ([] : List GuiEvent) <+:
      strategyEvents "Audio" true false "joined.mp3" [PrepStep.ok] (FinalStep.runOk false)
        [] false ∧
    (process_files_trace [] 7).getLast? = some GuiEvent.processingDone ∧
    (process_files_trace [] 7).dropLast.getLast? = some (GuiEvent.totalTime 7) :=
  ⟨List.nil_prefix,
   (c8_done_is_last "Audio" true false "joined.mp3" [PrepStep.ok] (FinalStep.runOk false)
      [] false 7 [] List.nil_prefix).1,
   (c8_done_is_last "Audio" true false "joined.mp3" [PrepStep.ok] (FinalStep.runOk false)
      [] false 7 [] List.nil_prefix).2.1⟩

/-- Step: an unsupported extension is skipped and its basename collected. -/
theorem addLoop_cons_unsupported (paths : List String) (f : String) (rest : List String)
    (h : toLowerAscii (splitextExt f) ∉ supported_extensions) :
    addLoop paths (f :: rest) =
      ((addLoop paths rest).1, basename f :: (addLoop paths rest).2.1,
       (addLoop paths rest).2.2) := by
  simp [addLoop, h]

/-- Step: a supported, new file is appended while the batch is short. -/
theorem addLoop_cons_add (paths : List String) (f : String) (rest : List String)
    (h1 : toLowerAscii (splitextExt f) ∈ supported_extensions)
    (h2 : paths.length < 20) (h3 : f ∉ paths) :
    addLoop paths (f :: rest) = addLoop (paths ++ [f]) rest := by
  simp [addLoop, h1, h2, h3]

/-- Step: at 20 files the loop warns and breaks. -/
theorem addLoop_cons_limit (paths : List String) (f : String) (rest : List String)
    (h1 : toLowerAscii (splitextExt f) ∈ supported_extensions)
    (h2 : 20 ≤ paths.length) :
    addLoop paths (f :: rest) = (paths, [], true) := by
  have hlt : ¬ paths.length < 20 := by omega
  simp [addLoop, h1, hlt, h2]

/-- Step: a path already in the batch is silently skipped. -/
theorem addLoop_cons_dup (paths : List String) (f : String) (rest : List String)
    (h1 : toLowerAscii (splitextExt f) ∈ supported_extensions)
    (h2 : paths.length < 20) (h3 : f ∈ paths) :
    addLoop paths (f :: rest) = addLoop paths rest := by
  have hge : ¬ 20 ≤ paths.length := by omega
  simp [addLoop, h1, h3, hge]

/-- The batch never grows past 20 entries. -/
theorem addLoop_length_le (files : List String) :
    ∀ paths : List String, paths.length ≤ 20 → (addLoop paths files).1.length ≤ 20 := by
  induction files with
  | nil => intro paths h; simpa [addLoop] using h
  | cons f rest ih =>
      intro paths h
      by_cases h1 : toLowerAscii (splitextExt f) ∈ supported_extensions
      · by_cases h2 : paths.length < 20
        · by_cases h3 : f ∈ paths
          · rw [addLoop_cons_dup paths f rest h1 h2 h3]; exact ih paths h
          · rw [addLoop_cons_add paths f rest h1 h2 h3]
            refine ih (paths ++ [f]) ?_
            simp only [List.length_append, List.length_singleton]
            omega
        · rw [addLoop_cons_limit paths f rest h1 (by omega)]; exact h
      · rw [addLoop_cons_unsupported paths f rest h1]; exact ih paths h

/-- Every batch entry was already there or has a supported extension. -/
theorem addLoop_mem_source (files : List String) :
    ∀ paths f, f ∈ (addLoop paths files).1 →
      f ∈ paths ∨ toLowerAscii (splitextExt f) ∈ supported_extensions := by
  induction files with
  | nil => intro paths f h; left; simpa [addLoop] using h
  | cons g rest ih =>
      intro paths f h
      by_cases h1 : toLowerAscii (splitextExt g) ∈ supported_extensions
      · by_cases h2 : paths.length < 20
        · by_cases h3 : g ∈ paths
          · rw [addLoop_cons_dup paths g rest h1 h2 h3] at h; exact ih paths f h
          · rw [addLoop_cons_add paths g rest h1 h2 h3] at h
            rcases ih _ f h with hm | hs
            · rcases List.mem_append.mp hm with hp | hg
              · exact Or.inl hp
              · right
                rw [List.mem_singleton.mp hg]
                exact h1
            · exact Or.inr hs
        · rw [addLoop_cons_limit paths g rest h1 (by omega)] at h; exact Or.inl h
      · rw [addLoop_cons_unsupported paths g rest h1] at h; exact ih paths f h

/-- The loop preserves distinctness of the batch. -/
theorem addLoop_nodup (files : List String) :
    ∀ paths : List String, paths.Nodup → (addLoop paths files).1.Nodup := by
  induction files with
  | nil => intro paths h; simpa [addLoop] using h
  | cons f rest ih =>
      intro paths h
      by_cases h1 : toLowerAscii (splitextExt f) ∈ supported_extensions
      · by_cases h2 : paths.length < 20
        · by_cases h3 : f ∈ paths
          · rw [addLoop_cons_dup paths f rest h1 h2 h3]; exact ih paths h
          · rw [addLoop_cons_add paths f rest h1 h2 h3]
            refine ih (paths ++ [f]) ?_
            refine List.Nodup.append h (List.nodup_singleton f) ?_
            intro a ha hb
            rw [List.mem_singleton.mp hb] at ha
            exact h3 ha
        · rw [addLoop_cons_limit paths f rest h1 (by omega)]; exact h
      · rw [addLoop_cons_unsupported paths f rest h1]; exact ih paths h

/-- A path already in the batch is never appended again. -/
theorem addLoop_count_mem (files : List String) :
    ∀ paths g, g ∈ paths → (addLoop paths files).1.count g = paths.count g := by
  induction files with
  | nil => intro paths g hg; simp [addLoop]
  | cons f rest ih =>
      intro paths g hg
      by_cases h1 : toLowerAscii (splitextExt f) ∈ supported_extensions
      · by_cases h2 : paths.length < 20
        · by_cases h3 : f ∈ paths
          · rw [addLoop_cons_dup paths f rest h1 h2 h3]; exact ih paths g hg
          · rw [addLoop_cons_add paths f rest h1 h2 h3]
            rw [ih (paths ++ [f]) g (List.mem_append_left _ hg)]
            rw [List.count_append]
            have hne : g ≠ f := fun hgf => h3 (hgf ▸ hg)
            have h0 : ([f] : List String).count g = 0 :=
              List.count_eq_zero.mpr (by simp [hne])
            simp [h0]
        · rw [addLoop_cons_limit paths f rest h1 (by omega)]
      · rw [addLoop_cons_unsupported paths f rest h1]; exact ih paths g hg

/-- Claim C7: the file batch never exceeds 20 entries; adding a supported
file to a full batch of 20 is rejected with the limit warning and leaves
the batch unchanged; and only files whose lowercased extension is in the
supported set are ever added. -/
theorem c7_batch_bound (paths files : List String) (h : paths.length ≤ 20) :
    (addLoop paths files).1.length ≤ 20 ∧
    (∀ f ∈ (addLoop paths files).1,
       f ∈ paths ∨ toLowerAscii (splitextExt f) ∈ supported_extensions) ∧
    (∀ f fs, paths.length = 20 → toLowerAscii (splitextExt f) ∈ supported_extensions →
       addLoop paths (f :: fs) = (paths, [], true) ∧
       (add_files_to_list paths (f :: fs)).1 = paths ∧
       GuiEvent.showwarning "Limit Reached" "You can only add up to 20 files." ∈
         (add_files_to_list paths (f :: fs)).2) := by
  refine ⟨addLoop_length_le files paths h,
    fun f hf => addLoop_mem_source files paths f hf,
    fun f fs h20 hsupp => ?_⟩
  have hfull : addLoop paths (f :: fs) = (paths, [], true) :=
    addLoop_cons_limit paths f fs hsupp (by omega)
  refine ⟨hfull, ?_, ?_⟩
  · simp [add_files_to_list, hfull]
  · simp [add_files_to_list, hfull]

/-- Witness for claim C7 at a full batch of 20 files. -/
theorem c7_witness :
    ((List.range 20).map (fun i => toString i ++ ".mp3")).length ≤ 20 ∧
    (addLoop ((List.range 20).map (fun i => toString i ++ ".mp3")) ["x.mp3"]).1.length ≤ 20 ∧
    ((List.range 20).map (fun i => toString i ++ ".mp3")).length = 20 ∧
    toLowerAscii (splitextExt "x.mp3") ∈ supported_extensions ∧
    (add_files_to_list ((List.range 20).map (fun i => toString i ++ ".mp3")) ["x.mp3"]).1 =
      (List.range 20).map (fun i => toString i ++ ".mp3") ∧
    GuiEvent.showwarning "Limit Reached" "You can only add up to 20 files." ∈
      (add_files_to_list ((List.range 20).map (fun i => toString i ++ ".mp3")) ["x.mp3"]).2 :=
  ⟨by decide, (c7_batch_bound _ ["x.mp3"] (by decide)).1, by decide, by decide,
   ((c7_batch_bound _ ["x.mp3"] (by decide)).2.2 "x.mp3" [] (by decide) (by decide)).2.1,
   ((c7_batch_bound _ ["x.mp3"] (by decide)).2.2 "x.mp3" [] (by decide) (by decide)).2.2⟩

/-- Claim C10: a path already present in the batch is never added again —
the batch stays duplicate-free after any insertion sequence, and the
multiplicity of a present path never changes. -/
theorem c10_no_duplicates (paths files : List String) (h : paths.Nodup) :
    (addLoop paths files).1.Nodup ∧
    (∀ g ∈ paths, (addLoop paths files).1.count g = paths.count g) ∧
    (add_files_to_list paths files).1.Nodup := by
  refine ⟨addLoop_nodup files paths h, fun g hg => addLoop_count_mem files paths g hg, ?_⟩
  simpa [add_files_to_list] using addLoop_nodup files paths h

/-- Witness for claim C10 at a batch re-offered one of its paths. -/
theorem c10_witness :
    (["a.mp3"] : List String).Nodup ∧
    (addLoop ["a.mp3"] ["a.mp3", "b.mp3"]).1.Nodup ∧
    (addLoop ["a.mp3"] ["a.mp3", "b.mp3"]).1.count "a.mp3" =
      (["a.mp3"] : List String).count "a.mp3" :=
  ⟨by decide, (c10_no_duplicates ["a.mp3"] ["a.mp3", "b.mp3"] (by decide)).1,
   (c10_no_duplicates ["a.mp3"] ["a.mp3", "b.mp3"] (by decide)).2.1 "a.mp3" (by decide)⟩
